import Mathlib

/-!
Verification development for the ByteDB-Analyser forensic suite.

Shallow embedding of the two subsystems the verified claims are about:

* the Forensic Analytics Engine (`FraudDetectionEngine` /
  `TimelineEngine` from the analytics module): pure functions over
  transaction-shaped and event-shaped records;
* the Evidence Vault (`EvidenceVault` from `services/reportService.ts`):
  archival, integrity verification, access/export, case summaries, with the
  registry modelled as an explicit list state and the wall clock
  (`Date.now()`) as an explicit `Nat` argument threaded through operations.

Hashing and encryption are ambient browser-crypto calls in the source
(`crypto.subtle`); they are modelled as injected function parameters
(`h : List Nat → Nat`, `enc : List Nat → List Nat`), which is faithful
because the source treats them as opaque deterministic primitives.
JavaScript numbers on integral data are modelled as `Int`/`Nat`; the two
percentage computations that can hit `0/0` (`NaN` in JavaScript) are noted
at their definitions: `Rat` division-by-zero yields `0`, and in both places
every downstream comparison agrees with the JavaScript `NaN` behaviour.
-/

/-! ## Fraud detection engine (analytics module) -/

/-- One transaction-shaped record `{from, to, amount, timestamp}`.
`timestamp` is in seconds for the fraud engine, matching the source's
duplicate-window comparison (`< 300` seconds). -/
structure Tx where
  from_ : String
  to_ : String
  amount : Int
  timestamp : Int
deriving DecidableEq, Repr

inductive Severity
  | critical
  | high
  | medium
  | low
deriving DecidableEq, Repr

/-- A `Finding` as produced by the analyzers.  The `relatedRecords : any[]`
field of the source is a heterogeneous display sample and is not modelled. -/
structure Finding where
  id : String
  severity : Severity
  category : String
  description : String
  evidence : List String
deriving DecidableEq, Repr

/-- `AnalyticsResult`.  The free-form `metadata : any` object is modelled as
a list of named numeric entries, which is all the fraud path puts in it. -/
structure AnalyticsResult where
  type : String
  riskScore : Nat
  findings : List Finding
  recommendations : List String
  metadata : List (String × Nat)
deriving DecidableEq, Repr

/-- Leading decimal digit of a natural number, i.e. the source's
`parseInt(String(amount).charAt(0))` on a positive integral amount. -/
def leadingDigit (n : Nat) : Nat :=
  ((Nat.digits 10 n).getLast?).getD 0

/-- The hard-coded `benfordLaw` table of expected leading-digit frequencies. -/
def benfordExpected : Nat → Rat
  | 1 => 301/1000
  | 2 => 176/1000
  | 3 => 125/1000
  | 4 => 97/1000
  | 5 => 79/1000
  | 6 => 67/1000
  | 7 => 58/1000
  | 8 => 51/1000
  | 9 => 46/1000
  | _ => 0

structure BenfordResult where
  anomaly : Bool
  anomalousDigits : List (Nat × Rat)
deriving DecidableEq, Repr

/-- `FraudDetectionEngine.analyzeBenford`.  Amounts are `Math.abs` values
filtered to be positive.  When `amounts` is empty the JavaScript division
`0 / 0` is `NaN` and every `deviation > 20` test is false, so no digit is
anomalous; the explicit empty guard reproduces exactly that.  The source's
`deviation.toFixed(2)` display rounding is not applied to the stored value. -/
def analyzeBenford (txs : List Tx) : BenfordResult :=
  let amounts := (txs.map (fun t => t.amount.natAbs)).filter (fun a => decide (0 < a))
  let anomalousDigits :=
    if amounts.length = 0 then []
    else (List.range' 1 9).filterMap (fun d =>
      let observed : Rat := ((amounts.countP (fun a => decide (leadingDigit a = d)) : Nat) : Rat) / ((amounts.length : Nat) : Rat)
      let expected := benfordExpected d
      let deviation := |(observed - expected) / expected| * 100
      if 20 < deviation then some (d, deviation) else none)
  ⟨decide (3 < anomalousDigits.length), anomalousDigits⟩

/-- The per-source adjacency structure `Map<string, Set<string>>` the stub
builds before discarding it. -/
def accountGraph (txs : List Tx) : List (String × List String) :=
  txs.foldl (fun g t =>
    match g.lookup t.from_ with
    | some outs => g.map (fun p => if p.1 = t.from_ then (p.1, if t.to_ ∈ outs then outs else outs ++ [t.to_]) else p)
    | none => g ++ [(t.from_, [t.to_])]) []

/-- `FraudDetectionEngine.detectCircularTransfers`.  The source builds the
account graph, declares `const cycles = []` under the comment "DFS-based
cycle detection (Simplified: full implementation would use Tarjan's
algorithm)" and returns `cycles` unchanged: it is a stub that always
reports zero cycles. -/
def detectCircularTransfers (txs : List Tx) : List (List String) :=
  let _graph := accountGraph txs
  []

structure RoundResult where
  count : Nat
  percentage : Rat
  transactions : List Tx
deriving DecidableEq, Repr

/-- `FraudDetectionEngine.detectRoundNumbers`.  On an empty transaction list
the JavaScript percentage is `NaN`; here it is `0` by `Rat` convention, and
both fail the only downstream test `percentage > 30`. -/
def detectRoundNumbers (txs : List Tx) : RoundResult :=
  let roundTransactions := txs.filter (fun t => t.amount % 100 == 0 || t.amount % 1000 == 0)
  ⟨roundTransactions.length,
   ((roundTransactions.length : Nat) : Rat) / ((txs.length : Nat) : Rat) * 100,
   roundTransactions⟩

/-- The grouping key `` `${t.from}-${t.to}-${t.amount}` `` used by
`detectDuplicates`: a string, so distinct `(from, to, amount)` triples can
collide when the account names themselves contain dashes. -/
def dupKey (t : Tx) : String :=
  t.from_ ++ "-" ++ t.to_ ++ "-" ++ toString t.amount

/-- Lookup in the `seen` map (keys are unique by construction, so list order
is irrelevant). -/
def findSeen (seen : List (String × Tx)) (k : String) : Option Tx :=
  match seen with
  | [] => none
  | (k', t) :: rest => if k' = k then some t else findSeen rest k

/-- Loop of `FraudDetectionEngine.detectDuplicates`: `seen` maps a key to
the first transaction carrying it; a later transaction with a seen key is
reported (paired with its `timeDifference`) when it is within 300 seconds of
that first transaction, and is never itself inserted into `seen`.  The
reported records carry `timeDifference`; the source's `duplicateOf` index is
bookkeeping on the same first occurrence and is not separately modelled. -/
def detectDuplicatesGo (seen : List (String × Tx)) : List Tx → List (Tx × Int)
  | [] => []
  | t :: rest =>
    match findSeen seen (dupKey t) with
    | some prev =>
      let timeDifference := |t.timestamp - prev.timestamp|
      if timeDifference < 300 then (t, timeDifference) :: detectDuplicatesGo seen rest
      else detectDuplicatesGo seen rest
    | none => detectDuplicatesGo ((dupKey t, t) :: seen) rest

/-- `FraudDetectionEngine.detectDuplicates`. -/
def detectDuplicates (txs : List Tx) : List (Tx × Int) :=
  detectDuplicatesGo [] txs

structure VelocityAnomaly where
  account : String
  count : Nat
  timeWindow : Nat
deriving DecidableEq, Repr

/-- Distinct `from` accounts in first-occurrence order — the key set of the
source's `accountActivity` map. -/
def velocityKeys (txs : List Tx) : List String :=
  txs.foldl (fun ks t => if t.from_ ∈ ks then ks else ks ++ [t.from_]) []

/-- `FraudDetectionEngine.detectVelocityAnomalies`.  The source groups by
`from` account and flags every account whose total transaction count
exceeds 50; `timeWindow = 60` is only copied into the report (the
timestamps of the transactions are never consulted), and the derived
display string `velocity = (count / 60).toFixed(2)` is not modelled. -/
def detectVelocityAnomalies (txs : List Tx) : List VelocityAnomaly :=
  (velocityKeys txs).filterMap (fun account =>
    let txns := txs.filter (fun t => t.from_ = account)
    if 50 < txns.length then some ⟨account, txns.length, 60⟩ else none)

def benfordFinding (benford : BenfordResult) : Finding :=
  ⟨"benford-001", Severity.high, "Statistical Anomaly",
   "Transaction amounts violate Benford's Law - suggesting fabricated data",
   benford.anomalousDigits.map (fun d => "Digit " ++ toString d.1 ++ ": " ++ toString d.2 ++ "% deviation")⟩

def circularFinding (circular : List (List String)) : Finding :=
  ⟨"circular-001", Severity.critical, "Money Laundering",
   "Detected " ++ toString circular.length ++ " circular transfer chains - possible money laundering",
   circular.map (fun c => "Chain: " ++ String.intercalate " -> " c)⟩

def roundFinding (round : RoundResult) : Finding :=
  ⟨"round-001", Severity.medium, "Anomalous Pattern",
   toString round.percentage ++ "% of transactions are round numbers - unusually high",
   ["Found " ++ toString round.count ++ " round-number transactions"]⟩

def dupFinding (dups : List (Tx × Int)) : Finding :=
  ⟨"dup-001", Severity.high, "Duplicate Transactions",
   "Found " ++ toString dups.length ++ " duplicate or near-duplicate transactions",
   dups.map (fun d => "Amount: " ++ toString d.1.amount ++ ", Time: " ++ toString d.2 ++ "s apart")⟩

def velocityFinding (velocity : List VelocityAnomaly) : Finding :=
  ⟨"velocity-001", Severity.medium, "High Velocity",
   toString velocity.length ++ " accounts show unusually high transaction velocity",
   velocity.map (fun v => v.account ++ ": " ++ toString v.count ++ " transactions in " ++ toString v.timeWindow ++ "min")⟩

/-- `FraudDetectionEngine.generateFraudRecommendations`: deterministic map
from finding categories to recommendation strings. -/
def generateFraudRecommendations (findings : List Finding) : List String :=
  findings.map (fun f =>
    if f.category = "Money Laundering" then
      "Recommend immediate freeze of circular transfer chains and FATF investigation"
    else if f.category = "Duplicate Transactions" then
      "Verify with banks - may indicate system glitches or deliberate duplication"
    else if f.category = "High Velocity" then
      "Institute transaction rate limiting and require multi-factor authentication"
    else "Investigate: " ++ f.description)

/-- `FraudDetectionEngine.detectFinancialFraud`: the five sub-analyses, each
conditionally pushing a finding and adding its contribution
(25, 35, 15, 20, 10) to `riskScore`, which is finally clamped by
`Math.min(riskScore, 100)`. -/
def detectFinancialFraud (txs : List Tx) : AnalyticsResult :=
  let benford := analyzeBenford txs
  let circular := detectCircularTransfers txs
  let round := detectRoundNumbers txs
  let dups := detectDuplicates txs
  let velocity := detectVelocityAnomalies txs
  let findings :=
    (if benford.anomaly then [benfordFinding benford] else []) ++
    (if 0 < circular.length then [circularFinding circular] else []) ++
    (if 30 < round.percentage then [roundFinding round] else []) ++
    (if 0 < dups.length then [dupFinding dups] else []) ++
    (if 0 < velocity.length then [velocityFinding velocity] else [])
  let riskScore :=
    (if benford.anomaly then 25 else 0) +
    (if 0 < circular.length then 35 else 0) +
    (if 30 < round.percentage then 15 else 0) +
    (if 0 < dups.length then 20 else 0) +
    (if 0 < velocity.length then 10 else 0)
  ⟨"fraud", Nat.min riskScore 100, findings, generateFraudRecommendations findings,
   [("analyzedRecords", txs.length), ("suspiciousPatterns", findings.length)]⟩

/-! ## Timeline engine (analytics module) -/

/-- One time-stamped event (milliseconds). -/
structure TEvent where
  timestamp : Int
deriving DecidableEq, Repr

/-- A cluster as assembled by `identifyEventClusters`; `startTime`/`endTime`
are `Date` wrappers of the first/last timestamps and are not separately
modelled. -/
structure Cluster where
  events : List TEvent
  duration : Int
deriving DecidableEq, Repr

/-- Loop body of `TimelineEngine.identifyEventClusters`: `current` is the
open cluster, `prev` its last event (`events[i-1]`).  A gap `< 60000` ms
extends the cluster, otherwise the cluster is closed and pushed.  Exactly as
in the source, the loop ends without pushing the still-open final cluster. -/
def clustersGo (current : List TEvent) (prev : TEvent) : List TEvent → List Cluster
  | [] => []
  | f :: rest =>
    if f.timestamp - prev.timestamp < 60000 then
      clustersGo (current ++ [f]) f rest
    else
      ⟨current, prev.timestamp - ((current.headD prev).timestamp)⟩ :: clustersGo [f] f rest

/-- `TimelineEngine.identifyEventClusters` with the hard-coded
`timeThreshold = 60000`.  On an empty list the JavaScript loop body never
runs and the empty `clusters` array is returned. -/
def identifyEventClusters : List TEvent → List Cluster
  | [] => []
  | e :: rest => clustersGo [e] e rest

/-! ## Evidence vault (`services/reportService.ts`) -/

inductive ChainAction
  | created
  | accessed
  | verified
  | exported
  | signed
deriving DecidableEq, Repr

inductive EvidenceStatus
  | archived
  | processing
  | verified
  | flagged
deriving DecidableEq, Repr

/-- A `ChainEntry` of the chain of custody.  Hashes are abstract `Nat`
digests (the source's hex strings). -/
structure ChainEntry where
  timestamp : Nat
  action : ChainAction
  investigator : String
  notes : Option String
  hash : Option Nat
deriving DecidableEq, Repr

structure EvidenceMetadata where
  source : String
  database : Option String
  table : Option String
  recordCount : Option Nat
deriving DecidableEq, Repr

/-- A `VaultEvidence` record.  The opaque `encryptionKey` handle (an empty
placeholder object in the source) is not modelled. -/
structure VaultEvidence where
  id : String
  caseId : String
  fileName : String
  fileHash : Nat
  encryptedHash : Nat
  timestamp : Nat
  size : Nat
  category : String
  tags : List String
  metadata : EvidenceMetadata
  chainOfCustody : List ChainEntry
  status : EvidenceStatus
  integrityVerified : Bool
deriving DecidableEq, Repr

/-- `EvidenceVault.categorizeFile`: extension-based bucketing.
`fileName.split('.').pop()` is the last component of `splitOn`. -/
def categorizeFile (fileName : String) : String :=
  let ext := ((fileName.splitOn ".").getLast?.getD "").toLower
  if ext ∈ ["sql", "csv", "json"] then "database_export"
  else if ext ∈ ["log", "txt"] then "logs"
  else if ext ∈ ["pdf", "doc", "docx"] then "documents"
  else "other"

/-- `EvidenceVault.generateEvidenceId`: `` `EV-${Date.now()}-${random}` ``,
with the random suffix passed in explicitly. -/
def generateEvidenceId (now : Nat) (rand : String) : String :=
  "EV-" ++ toString now ++ "-" ++ rand

/-- `EvidenceVault.archiveEvidence`.  `h` is the injected SHA-256 digest,
`enc` the injected encryption primitive, `now` the `Date.now()` reading and
`rand` the random id suffix.  Returns the new record together with the
updated registry (the source's `evidenceRegistry.set`).  The record is
created with the single `created` custody entry, status `archived` and
`integrityVerified = true`. -/
def archiveEvidence (h : List Nat → Nat) (enc : List Nat → List Nat)
    (vault : List VaultEvidence) (caseId fileName : String) (fileData : List Nat)
    (metadata : EvidenceMetadata) (tags : List String) (now : Nat) (rand : String) :
    VaultEvidence × List VaultEvidence :=
  let originalHash := h fileData
  let encryptedData := enc fileData
  let encryptedHash := h encryptedData
  let chainEntry : ChainEntry :=
    ⟨now, ChainAction.created, "System", some "Evidence archived and encrypted", some originalHash⟩
  let vaultEvidence : VaultEvidence :=
    ⟨generateEvidenceId now rand, caseId, fileName, originalHash, encryptedHash, now,
     fileData.length, categorizeFile fileName, tags, metadata, [chainEntry],
     EvidenceStatus.archived, true⟩
  (vaultEvidence, vault ++ [vaultEvidence])

/-- Registry lookup `evidenceRegistry.get(evidenceId)`. -/
def findEvidence (vault : List VaultEvidence) (evidenceId : String) : Option VaultEvidence :=
  vault.find? (fun e => e.id = evidenceId)

/-- The outcome record returned by `verifyIntegrity`.  In the source
`currentHash` is a string; in the only reachable path it is the stored
`encryptedHash`. -/
structure VerificationOutcome where
  valid : Bool
  message : String
  originalHash : Nat
  currentHash : Nat
deriving DecidableEq, Repr

/-- The mutation `verifyIntegrity` performs on the found record: push one
`verified` custody entry whose `hash` snapshot is the stored `fileHash`, and
set `integrityVerified` to the constant `isValid = true`.  `status` is not
touched. -/
def pushVerified (investigator : String) (now : Nat) (e : VaultEvidence) : VaultEvidence :=
  { e with
    chainOfCustody := e.chainOfCustody ++
      [⟨now, ChainAction.verified, investigator,
        some "Integrity verified - no tampering detected", some e.fileHash⟩],
    integrityVerified := true }

/-- `EvidenceVault.verifyIntegrity`.  `none` models the thrown
`Evidence not found` error.  The source never recomputes any hash: it sets
`const isValid = true` under the comment "Would verify cryptographically",
always appends the `verified` entry, and returns `valid: true` with
`originalHash = fileHash` and `currentHash = encryptedHash`. -/
def verifyIntegrity (vault : List VaultEvidence) (evidenceId investigator : String)
    (now : Nat) : Option (VerificationOutcome × List VaultEvidence) :=
  match findEvidence vault evidenceId with
  | none => none
  | some evidence =>
    some (⟨true, "Evidence integrity verified - no tampering detected",
           evidence.fileHash, evidence.encryptedHash⟩,
          vault.map (fun e => if e.id = evidenceId then pushVerified investigator now e else e))

structure AccessResult where
  success : Bool
  evidence : Option VaultEvidence
  message : String
deriving DecidableEq, Repr

/-- The mutation `accessEvidence` performs: push one `accessed` entry. -/
def pushAccessed (investigator purpose : String) (now : Nat) (e : VaultEvidence) : VaultEvidence :=
  { e with
    chainOfCustody := e.chainOfCustody ++
      [⟨now, ChainAction.accessed, investigator, some ("Accessed for: " ++ purpose), none⟩] }

/-- `EvidenceVault.accessEvidence`: an unknown id is reported as a failed
result (not an exception); a found record gets one `accessed` custody entry
and is returned. -/
def accessEvidence (vault : List VaultEvidence) (evidenceId investigator purpose : String)
    (now : Nat) : AccessResult × List VaultEvidence :=
  match findEvidence vault evidenceId with
  | none => (⟨false, none, "Evidence not found: " ++ evidenceId⟩, vault)
  | some evidence =>
    (⟨true, some (pushAccessed investigator purpose now evidence),
      "Evidence accessed - logged in chain-of-custody"⟩,
     vault.map (fun e => if e.id = evidenceId then pushAccessed investigator purpose now e else e))

structure ExportResult where
  success : Bool
  signature : Option String
  fileHash : Option Nat
  chainSnapshot : List ChainEntry
deriving DecidableEq, Repr

/-- The mutation `exportEvidence` performs: push one `exported` entry. -/
def pushExported (investigator format : String) (now : Nat) (e : VaultEvidence) : VaultEvidence :=
  { e with
    chainOfCustody := e.chainOfCustody ++
      [⟨now, ChainAction.exported, investigator, some ("Exported in " ++ format ++ " format"), none⟩] }

/-- `EvidenceVault.exportEvidence`.  `sign` is the injected signing
primitive over `(evidenceId, fileHash, timestamp, investigator)`; the
returned metadata carries the custody snapshot taken after the push, as in
the source (the pushed array is the one embedded in the result). -/
def exportEvidence (sign : String → Nat → Nat → String → String)
    (vault : List VaultEvidence) (evidenceId investigator format : String)
    (now : Nat) : ExportResult × List VaultEvidence :=
  match findEvidence vault evidenceId with
  | none => (⟨false, none, none, []⟩, vault)
  | some evidence =>
    (⟨true, some (sign evidenceId evidence.fileHash now investigator),
      some evidence.fileHash,
      (pushExported investigator format now evidence).chainOfCustody⟩,
     vault.map (fun e => if e.id = evidenceId then pushExported investigator format now e else e))

inductive IntegrityStatus
  | all_verified
  | partial_verified
  | unverified
deriving DecidableEq, Repr

structure CaseSummary where
  totalEvidence : Nat
  totalSize : Nat
  integrityStatus : IntegrityStatus
  lastModified : Nat
  evidenceList : List VaultEvidence
deriving DecidableEq, Repr

/-- `EvidenceVault.getCaseSummary`: filter the registry to the case, then
`every` / `some` over `integrityVerified` decide the integrity status;
`lastModified` is `Math.max(...timestamps, 0)`. -/
def getCaseSummary (vault : List VaultEvidence) (caseId : String) : CaseSummary :=
  let caseEvidence := vault.filter (fun e => e.caseId = caseId)
  let allVerified := caseEvidence.all (fun e => e.integrityVerified)
  let partialVerified := caseEvidence.any (fun e => e.integrityVerified)
  ⟨caseEvidence.length,
   caseEvidence.foldl (fun sum e => sum + e.size) 0,
   if allVerified then IntegrityStatus.all_verified
   else if partialVerified then IntegrityStatus.partial_verified
   else IntegrityStatus.unverified,
   caseEvidence.foldl (fun m e => Nat.max m e.timestamp) 0,
   caseEvidence⟩

/-- One registry operation of the chain-mutating API, tagged with the id it
targets; used to state the chain-of-custody invariant over arbitrary
operation sequences. -/
inductive VaultOp
  | access (evidenceId investigator purpose : String)
  | verify (evidenceId investigator : String)
  | exportOp (evidenceId investigator format : String)
deriving DecidableEq, Repr

/-- Apply one operation at one clock reading to the registry.  The signature
value does not influence the registry, so `exportOp` steps with a trivial
signer. -/
def stepOp (vault : List VaultEvidence) : VaultOp × Nat → List VaultEvidence
  | (VaultOp.access evidenceId investigator purpose, now) =>
    (accessEvidence vault evidenceId investigator purpose now).2
  | (VaultOp.verify evidenceId investigator, now) =>
    match verifyIntegrity vault evidenceId investigator now with
    | none => vault
    | some (_, vault2) => vault2
  | (VaultOp.exportOp evidenceId investigator format, now) =>
    (exportEvidence (fun _ _ _ _ => "") vault evidenceId investigator format now).2

/-- Run a timed operation trace left to right. -/
def runTrace (vault : List VaultEvidence) (trace : List (VaultOp × Nat)) : List VaultEvidence :=
  trace.foldl stepOp vault

/-- Chain of custody of the record registered under `evidenceId` (empty if
the id is absent). -/
def chainOf (vault : List VaultEvidence) (evidenceId : String) : List ChainEntry :=
  ((findEvidence vault evidenceId).map (fun e => e.chainOfCustody)).getD []

/-- Repeated `verifyIntegrity` calls on one id, one per clock reading,
discarding the outcomes (used for the audit-trail growth claim). -/
def verifyN (vault : List VaultEvidence) (evidenceId investigator : String)
    (times : List Nat) : List VaultEvidence :=
  times.foldl (fun v t =>
    match verifyIntegrity v evidenceId investigator t with
    | none => v
    | some (_, v2) => v2) vault

/-- Well-formedness of every chain in the registry at clock bound `t`: each
record's chain starts with a `created` entry, has non-decreasing timestamps,
and all its timestamps are at most `t`. -/
def VaultWF (t : Nat) (vault : List VaultEvidence) : Prop :=
  ∀ e ∈ vault,
    (∃ c rest, e.chainOfCustody = c :: rest ∧ c.action = ChainAction.created) ∧
    List.Chain' (fun a b => a.timestamp ≤ b.timestamp) e.chainOfCustody ∧
    ∀ c ∈ e.chainOfCustody, c.timestamp ≤ t

/-! ## Shared helper lemmas -/

/-- Registry lookup commutes with a targeted, id-preserving record update. -/
theorem findEvidence_map_update (vault : List VaultEvidence) (tid : String)
    (g : VaultEvidence → VaultEvidence) (hg : ∀ e, (g e).id = e.id) (q : String) :
    findEvidence (vault.map (fun e => if e.id = tid then g e else e)) q
      = (findEvidence vault q).map (fun e => if e.id = tid then g e else e) := by
  induction vault with
  | nil => rfl
  | cons a l ih =>
    have hxid : (if a.id = tid then g a else a).id = a.id := by
      by_cases ha : a.id = tid <;> simp [ha, hg]
    by_cases hq : a.id = q
    · have hL : findEvidence ((if a.id = tid then g a else a) :: l.map (fun e => if e.id = tid then g e else e)) q
          = some (if a.id = tid then g a else a) :=
        List.find?_cons_of_pos _ (by simp only [hxid, decide_eq_true_eq]; exact hq)
      have hR : findEvidence (a :: l) q = some a :=
        List.find?_cons_of_pos _ (by simp only [decide_eq_true_eq]; exact hq)
      simp [hL, hR]
    · have hL : findEvidence ((if a.id = tid then g a else a) :: l.map (fun e => if e.id = tid then g e else e)) q
          = findEvidence (l.map (fun e => if e.id = tid then g e else e)) q :=
        List.find?_cons_of_neg _ (by simp only [hxid, decide_eq_true_eq]; exact hq)
      have hR : findEvidence (a :: l) q = findEvidence l q :=
        List.find?_cons_of_neg _ (by simp only [decide_eq_true_eq]; exact hq)
      simp only [List.map_cons]
      rw [hL, hR]
      exact ih

/-- The element returned by `findEvidence` carries the looked-up id. -/
theorem findEvidence_id {vault : List VaultEvidence} {q : String} {e : VaultEvidence}
    (hfind : findEvidence vault q = some e) : e.id = q := by
  have := List.find?_some hfind
  simpa using this

/-- On a found id, `verifyIntegrity` returns the always-valid outcome and
the registry with exactly the target record rewritten by `pushVerified`. -/
theorem verifyIntegrity_eq_of_find {vault : List VaultEvidence}
    {evidenceId : String} {e : VaultEvidence} (investigator : String) (now : Nat)
    (hfind : findEvidence vault evidenceId = some e) :
    verifyIntegrity vault evidenceId investigator now
      = some (⟨true, "Evidence integrity verified - no tampering detected",
              e.fileHash, e.encryptedHash⟩,
              vault.map (fun x => if x.id = evidenceId then pushVerified investigator now x else x)) := by
  unfold verifyIntegrity
  rw [hfind]

/-- After a successful verification, looking the id up again yields the
pushed record. -/
theorem findEvidence_after_verify {vault : List VaultEvidence}
    {evidenceId : String} {e : VaultEvidence} (investigator : String) (now : Nat)
    (hfind : findEvidence vault evidenceId = some e) :
    findEvidence (vault.map (fun x => if x.id = evidenceId then pushVerified investigator now x else x)) evidenceId
      = some (pushVerified investigator now e) := by
  rw [findEvidence_map_update vault evidenceId (pushVerified investigator now) (fun _ => rfl) evidenceId, hfind]
  simp [findEvidence_id hfind]

/-! ## C1, C2, C3: archival and integrity verification -/

/-- C1: for every byte input, case id and metadata, archiving and then
immediately verifying the returned record's id produces a verification
outcome with `valid = true`.  (In the source `verifyIntegrity` returns the
constant `isValid = true` whenever the id resolves, and archiving stores
the record under its id.) -/
theorem archive_then_verify_valid (h : List Nat → Nat) (enc : List Nat → List Nat)
    (vault : List VaultEvidence) (caseId fileName : String) (fileData : List Nat)
    (metadata : EvidenceMetadata) (tags : List String) (now : Nat) (rand : String)
    (investigator : String) (now2 : Nat) :
    ∃ o v2, verifyIntegrity
        (archiveEvidence h enc vault caseId fileName fileData metadata tags now rand).2
        (archiveEvidence h enc vault caseId fileName fileData metadata tags now rand).1.id
        investigator now2 = some (o, v2) ∧ o.valid = true := by
  have harch : (archiveEvidence h enc vault caseId fileName fileData metadata tags now rand).2
      = vault ++ [(archiveEvidence h enc vault caseId fileName fileData metadata tags now rand).1] := rfl
  rw [harch]
  rcases hfind : findEvidence
      (vault ++ [(archiveEvidence h enc vault caseId fileName fileData metadata tags now rand).1])
      (archiveEvidence h enc vault caseId fileName fileData metadata tags now rand).1.id
    with _ | ev
  · exfalso
    rw [findEvidence, List.find?_eq_none] at hfind
    have hmem := hfind _ (List.mem_append_right _ (List.mem_singleton_self _))
    simp at hmem
  · exact ⟨_, _, verifyIntegrity_eq_of_find investigator now2 hfind, rfl⟩

/-- C2: the source's `verifyIntegrity` has no mismatch branch at all: it
never recomputes a hash (`const isValid = true`), so for every registry
state it reports `valid = true`, never changes any record's `status` (in
particular never sets `flagged`), and never sets `integrityVerified` to
`false`.  This contradicts the claimed tamper-detection contract, which the
surrounding comments ("Would verify cryptographically") mark as the
unimplemented intent. -/
theorem verifyIntegrity_constant_valid (vault : List VaultEvidence)
    (evidenceId investigator : String) (now : Nat) (o : VerificationOutcome)
    (v2 : List VaultEvidence)
    (hsome : verifyIntegrity vault evidenceId investigator now = some (o, v2)) :
    o.valid = true ∧
    v2.map (fun e => e.status) = vault.map (fun e => e.status) ∧
    ∀ e ∈ v2, e.integrityVerified = true ∨ e ∈ vault := by
  rcases hfind : findEvidence vault evidenceId with _ | ev
  · rw [verifyIntegrity, hfind] at hsome
    exact absurd hsome (by simp)
  · rw [verifyIntegrity_eq_of_find investigator now hfind] at hsome
    obtain ⟨ho, hv2⟩ := Prod.mk.injEq .. ▸ Option.some.injEq .. ▸ hsome
    refine ⟨by rw [← ho], ?_, ?_⟩
    · rw [← hv2, List.map_map]
      refine List.map_congr_left (fun e _ => ?_)
      by_cases hid : e.id = evidenceId <;> simp [hid, pushVerified]
    · intro e he
      rw [← hv2] at he
      obtain ⟨a, ha, rfl⟩ := List.mem_map.mp he
      by_cases hid : a.id = evidenceId
      · left; simp [hid, pushVerified]
      · right; simpa [hid] using ha

def sampleChainEntry : ChainEntry :=
  ⟨10, ChainAction.created, "System", some "Evidence archived and encrypted", some 111⟩

def sampleEvidence : VaultEvidence :=
  ⟨"EV-1", "CASE-1", "dump.sql", 111, 222, 10, 3, "database_export", [],
   ⟨"db", none, none, none⟩, [sampleChainEntry], EvidenceStatus.archived, true⟩

def c2Outcome : VerificationOutcome :=
  ⟨true, "Evidence integrity verified - no tampering detected", 111, 222⟩

/-- Witness for C2's theorem at a concrete one-record registry. -/
theorem verifyIntegrity_constant_valid_witness :
    verifyIntegrity [sampleEvidence] "EV-1" "alice" 20
        = some (c2Outcome, [pushVerified "alice" 20 sampleEvidence]) ∧
    (c2Outcome.valid = true ∧
     [pushVerified "alice" 20 sampleEvidence].map (fun e => e.status)
        = [sampleEvidence].map (fun e => e.status) ∧
     ∀ e ∈ [pushVerified "alice" 20 sampleEvidence],
       e.integrityVerified = true ∨ e ∈ [sampleEvidence]) :=
  ⟨by decide,
   verifyIntegrity_constant_valid [sampleEvidence] "EV-1" "alice" 20 c2Outcome
     [pushVerified "alice" 20 sampleEvidence] (by decide)⟩

/-- One `verifyN` unrolling step on a found id. -/
theorem verifyN_cons_of_find {vault : List VaultEvidence} {evidenceId : String}
    {e : VaultEvidence} (investigator : String) (t : Nat) (ts : List Nat)
    (hfind : findEvidence vault evidenceId = some e) :
    verifyN vault evidenceId investigator (t :: ts)
      = verifyN (vault.map (fun x => if x.id = evidenceId then pushVerified investigator t x else x))
          evidenceId investigator ts := by
  unfold verifyN
  rw [List.foldl_cons]
  rw [show (verifyIntegrity vault evidenceId investigator t) = _ from
    verifyIntegrity_eq_of_find investigator t hfind]

/-- Chain growth across repeated verifications: each call adds exactly one
entry, so `n` calls add exactly `n`. -/
theorem verifyN_growth (evidenceId investigator : String) :
    ∀ (times : List Nat) (vault : List VaultEvidence) (e : VaultEvidence),
      findEvidence vault evidenceId = some e →
      ∃ e2, findEvidence (verifyN vault evidenceId investigator times) evidenceId = some e2 ∧
        e2.chainOfCustody.length = e.chainOfCustody.length + times.length := by
  intro times
  induction times with
  | nil =>
    intro vault e hfind
    exact ⟨e, hfind, by simp⟩
  | cons t ts ih =>
    intro vault e hfind
    have hfind2 := findEvidence_after_verify investigator t hfind
    obtain ⟨e2, h2, hlen⟩ := ih _ _ hfind2
    refine ⟨e2, ?_, ?_⟩
    · rw [verifyN_cons_of_find investigator t ts hfind]
      exact h2
    · rw [hlen]
      simp only [pushVerified, List.length_append, List.length_cons, List.length_nil, List.length]
      omega

/-- C3: when `verifyIntegrity` finds the record, it appends exactly one
custody entry — a `verified` entry at the call's clock reading whose `hash`
snapshot is the record's stored content hash `fileHash` (the hash the
always-passing verification reports as `originalHash`) — regardless of the
outcome (which in the source is always valid); and `n` repeated calls grow
the chain by exactly `n` entries. -/
theorem verify_appends_one_entry (vault : List VaultEvidence)
    (evidenceId investigator : String) (now : Nat) (e : VaultEvidence)
    (hfind : findEvidence vault evidenceId = some e) :
    (∃ o v2, verifyIntegrity vault evidenceId investigator now = some (o, v2) ∧
      findEvidence v2 evidenceId = some (pushVerified investigator now e) ∧
      (pushVerified investigator now e).chainOfCustody
        = e.chainOfCustody ++
          [⟨now, ChainAction.verified, investigator,
            some "Integrity verified - no tampering detected", some e.fileHash⟩] ∧
      (pushVerified investigator now e).chainOfCustody.length
        = e.chainOfCustody.length + 1 ∧
      o.originalHash = e.fileHash) ∧
    ∀ times : List Nat,
      ∃ e2, findEvidence (verifyN vault evidenceId investigator times) evidenceId = some e2 ∧
        e2.chainOfCustody.length = e.chainOfCustody.length + times.length := by
  constructor
  · exact ⟨_, _, verifyIntegrity_eq_of_find investigator now hfind,
      findEvidence_after_verify investigator now hfind, rfl, by simp [pushVerified], rfl⟩
  · intro times
    exact verifyN_growth evidenceId investigator times vault e hfind

/-- Witness for C3's theorem on a concrete one-record registry. -/
theorem verify_appends_one_entry_witness :
    findEvidence [sampleEvidence] "EV-1" = some sampleEvidence ∧
    ((∃ o v2, verifyIntegrity [sampleEvidence] "EV-1" "carol" 42 = some (o, v2) ∧
      findEvidence v2 "EV-1" = some (pushVerified "carol" 42 sampleEvidence) ∧
      (pushVerified "carol" 42 sampleEvidence).chainOfCustody
        = sampleEvidence.chainOfCustody ++
          [⟨42, ChainAction.verified, "carol",
            some "Integrity verified - no tampering detected", some sampleEvidence.fileHash⟩] ∧
      (pushVerified "carol" 42 sampleEvidence).chainOfCustody.length
        = sampleEvidence.chainOfCustody.length + 1 ∧
      o.originalHash = sampleEvidence.fileHash) ∧
    ∀ times : List Nat,
      ∃ e2, findEvidence (verifyN [sampleEvidence] "EV-1" "carol" times) "EV-1" = some e2 ∧
        e2.chainOfCustody.length = sampleEvidence.chainOfCustody.length + times.length) :=
  ⟨by decide, verify_appends_one_entry [sampleEvidence] "EV-1" "carol" 42 sampleEvidence (by decide)⟩

/-! ## C5, C6, C7: analytics engine claims -/

/-- C5: for every transaction list the fraud `riskScore` lies in `[0, 100]`
(it is `Math.min` of a sum of non-negative contributions and `100`), and if
all five sub-analyses fire simultaneously the raw sum 25+35+15+20+10 = 105
is reported as exactly 100.  (In this code base the circular-transfer
detector can never fire — see the C7 theorem — so the all-five situation is
a structural property of the clamping, not a reachable state.) -/
theorem detectFinancialFraud_riskScore_clamped (txs : List Tx) :
    0 ≤ (detectFinancialFraud txs).riskScore ∧
    (detectFinancialFraud txs).riskScore ≤ 100 ∧
    ((analyzeBenford txs).anomaly = true ∧
     0 < (detectCircularTransfers txs).length ∧
     30 < (detectRoundNumbers txs).percentage ∧
     0 < (detectDuplicates txs).length ∧
     0 < (detectVelocityAnomalies txs).length →
     (detectFinancialFraud txs).riskScore = 100) := by
  refine ⟨Nat.zero_le _, Nat.min_le_right _ _, ?_⟩
  rintro ⟨h1, h2, h3, h4, h5⟩
  simp [detectFinancialFraud, h1, h2, h3, h4, h5]

def c6Events : List TEvent := [⟨0⟩, ⟨1000⟩, ⟨2000⟩, ⟨70000⟩, ⟨71000⟩]

/-- C6: on the events at 0, 1000, 2000, 70000 and 71000 ms with the
hard-coded 60000 ms threshold, the source's clustering returns only the
single cluster with timestamps 0, 1000 and 2000: the loop closes a cluster
only when a large gap arrives, so the final open cluster with 70000 and
71000 is silently discarded instead of being the claimed second cluster. -/
theorem identifyEventClusters_drops_final_cluster :
    (identifyEventClusters c6Events).map (fun c => c.events.map (fun e => e.timestamp))
      = [[0, 1000, 2000]] ∧
    (identifyEventClusters c6Events).length = 1 := by
  decide

def c7Txs : List Tx := [⟨"A", "B", 10, 0⟩, ⟨"B", "C", 10, 1⟩, ⟨"C", "A", 10, 2⟩]

/-- C7: the circular-transfer detector is a stub: on the 3-cycle
A→B, B→C, C→A it reports no cycle at all (instead of the claimed single
3-node cycle with its +35 contribution), because it returns the empty
`cycles` array for every input. -/
theorem detectCircularTransfers_stub_empty :
    detectCircularTransfers c7Txs = [] ∧
    ∀ txs, detectCircularTransfers txs = [] :=
  ⟨rfl, fun _ => rfl⟩

/-! ## C10: empty-case summary -/

/-- C10: a case id with no archived records yields `totalEvidence = 0`,
`totalSize = 0` and integrity status `all_verified`: JavaScript's
`[].every(...)` is vacuously true, so an empty case is reported as fully
verified. -/
theorem getCaseSummary_empty_case (vault : List VaultEvidence) (caseId : String)
    (hempty : ∀ e ∈ vault, e.caseId ≠ caseId) :
    getCaseSummary vault caseId = ⟨0, 0, IntegrityStatus.all_verified, 0, []⟩ := by
  have hf : vault.filter (fun e => decide (e.caseId = caseId)) = [] := by
    rw [List.filter_eq_nil_iff]
    intro a ha
    simpa using hempty a ha
  simp [getCaseSummary, hf]

/-- Witness for C10's theorem: the empty registry. -/
theorem getCaseSummary_empty_case_witness :
    (∀ e ∈ ([] : List VaultEvidence), e.caseId ≠ "CASE-7") ∧
    getCaseSummary [] "CASE-7" = ⟨0, 0, IntegrityStatus.all_verified, 0, []⟩ :=
  ⟨by simp, getCaseSummary_empty_case [] "CASE-7" (by simp)⟩

/-! ## C8: duplicate detection -/

/-- If a transaction's key is already in `seen` and its timestamp is within
300 seconds of the remembered first occurrence, the loop reports it. -/
theorem detectDuplicatesGo_mem_of_seen :
    ∀ (txs : List Tx) (seen : List (String × Tx)) (b prev : Tx),
      b ∈ txs → findSeen seen (dupKey b) = some prev →
      |b.timestamp - prev.timestamp| < 300 →
      (b, |b.timestamp - prev.timestamp|) ∈ detectDuplicatesGo seen txs := by
  intro txs
  induction txs with
  | nil => intro seen b prev hb; exact absurd hb (List.not_mem_nil b)
  | cons t rest ih =>
    intro seen b prev hb hfound hlt
    rcases List.mem_cons.mp hb with rfl | hb'
    · simp only [detectDuplicatesGo, hfound]
      rw [if_pos hlt]
      exact List.mem_cons_self _ _
    · cases hf : findSeen seen (dupKey t) with
      | some q =>
        simp only [detectDuplicatesGo, hf]
        by_cases hq : |t.timestamp - q.timestamp| < 300
        · rw [if_pos hq]
          exact List.mem_cons_of_mem _ (ih seen b prev hb' hfound hlt)
        · rw [if_neg hq]
          exact ih seen b prev hb' hfound hlt
      | none =>
        have hne : ¬ dupKey t = dupKey b := fun he => by
          rw [he, hfound] at hf
          exact Option.noConfusion hf
        have hfound2 : findSeen ((dupKey t, t) :: seen) (dupKey b) = some prev := by
          unfold findSeen
          rw [if_neg hne]
          exact hfound
        simp only [detectDuplicatesGo, hf]
        exact ih _ b prev hb' hfound2 hlt

/-- Walking past a prefix that never carries the key of `a`, the first
transaction `a` of a group is remembered, and a later in-window `b` of the
same group is reported. -/
theorem detectDuplicatesGo_mem_first :
    ∀ (pre : List Tx) (seen : List (String × Tx)) (a : Tx) (mid : List Tx) (b : Tx) (post : List Tx),
      (∀ u ∈ pre, dupKey u ≠ dupKey a) →
      findSeen seen (dupKey a) = none →
      dupKey b = dupKey a →
      |b.timestamp - a.timestamp| < 300 →
      (b, |b.timestamp - a.timestamp|) ∈ detectDuplicatesGo seen (pre ++ a :: (mid ++ b :: post)) := by
  intro pre
  induction pre with
  | nil =>
    intro seen a mid b post _ hnone hkey hlt
    rw [List.nil_append]
    simp only [detectDuplicatesGo, hnone]
    apply detectDuplicatesGo_mem_of_seen
    · exact List.mem_append_right _ (List.mem_cons_self _ _)
    · show findSeen ((dupKey a, a) :: seen) (dupKey b) = some a
      unfold findSeen
      rw [if_pos hkey.symm]
    · exact hlt
  | cons u pre' ih =>
    intro seen a mid b post hpre hnone hkey hlt
    have hu : dupKey u ≠ dupKey a := hpre u (List.mem_cons_self _ _)
    have hpre' : ∀ v ∈ pre', dupKey v ≠ dupKey a := fun v hv => hpre v (List.mem_cons_of_mem _ hv)
    rw [List.cons_append]
    cases hf : findSeen seen (dupKey u) with
    | some q =>
      simp only [detectDuplicatesGo, hf]
      by_cases hq : |u.timestamp - q.timestamp| < 300
      · rw [if_pos hq]
        exact List.mem_cons_of_mem _ (ih seen a mid b post hpre' hnone hkey hlt)
      · rw [if_neg hq]
        exact ih seen a mid b post hpre' hnone hkey hlt
    | none =>
      have hnone2 : findSeen ((dupKey u, u) :: seen) (dupKey a) = none := by
        unfold findSeen
        rw [if_neg hu]
        exact hnone
      simp only [detectDuplicatesGo, hf]
      exact ih _ a mid b post hpre' hnone2 hkey hlt

/-- C8 (amended): within a key group, every later transaction whose
timestamp differs from the group's FIRST transaction by less than
300 seconds is reported as a duplicate, paired with that first transaction
(the only group member the `seen` map remembers; the claim's stronger
"every in-window pair" fails on pairs of two later members, see the
counterexample theorem).  In particular the two concrete examples of the
claim hold: the `(X, Y, 100)` pair at 0 s and 120 s is reported, and at
0 s and 400 s it is not. -/
theorem detectDuplicates_first_occurrence :
    (∀ (pre : List Tx) (a : Tx) (mid : List Tx) (b : Tx) (post : List Tx),
      (∀ u ∈ pre, dupKey u ≠ dupKey a) →
      dupKey b = dupKey a →
      |b.timestamp - a.timestamp| < 300 →
      (b, |b.timestamp - a.timestamp|) ∈ detectDuplicates (pre ++ a :: (mid ++ b :: post))) ∧
    detectDuplicates [⟨"X", "Y", 100, 0⟩, ⟨"X", "Y", 100, 120⟩]
      = [(⟨"X", "Y", 100, 120⟩, 120)] ∧
    detectDuplicates [⟨"X", "Y", 100, 0⟩, ⟨"X", "Y", 100, 400⟩] = [] := by
  refine ⟨?_, by decide, by decide⟩
  intro pre a mid b post hpre hkey hlt
  exact detectDuplicatesGo_mem_first pre [] a mid b post hpre rfl hkey hlt

def c8TxA : Tx := ⟨"X", "Y", 100, 0⟩

def c8TxB : Tx := ⟨"X", "Y", 100, 120⟩

/-- Witness for C8's theorem: the in-window pair at 0 s and 120 s. -/
theorem detectDuplicates_first_occurrence_witness :
    (∀ u ∈ ([] : List Tx), dupKey u ≠ dupKey c8TxA) ∧
    dupKey c8TxB = dupKey c8TxA ∧
    |c8TxB.timestamp - c8TxA.timestamp| < 300 ∧
    (c8TxB, |c8TxB.timestamp - c8TxA.timestamp|)
      ∈ detectDuplicates ([] ++ c8TxA :: ([] ++ c8TxB :: [])) :=
  ⟨by simp, by decide, by decide,
   detectDuplicates_first_occurrence.1 [] c8TxA [] c8TxB [] (by simp) (by decide) (by decide)⟩

def c8CexTxs : List Tx :=
  [⟨"X", "Y", 100, 0⟩, ⟨"X", "Y", 100, 400⟩, ⟨"X", "Y", 100, 500⟩]

/-- C8 counterexample to the claim as stated: the second and third
transactions share the group key and are only 100 s apart (well within
300 s), yet `detectDuplicates` reports nothing, because both are compared
against the group's first transaction at 0 s only. -/
theorem detectDuplicates_not_pairwise :
    detectDuplicates c8CexTxs = [] ∧
    (⟨"X", "Y", 100, 400⟩ : Tx) ∈ c8CexTxs ∧
    (⟨"X", "Y", 100, 500⟩ : Tx) ∈ c8CexTxs ∧
    dupKey (⟨"X", "Y", 100, 400⟩ : Tx) = dupKey (⟨"X", "Y", 100, 500⟩ : Tx) ∧
    |(500 : Int) - 400| < 300 := by
  decide

/-! ## C9: velocity anomalies -/

/-- The key-accumulating fold only ever grows its accumulator. -/
theorem velocityKeys_foldl_mono :
    ∀ (txs : List Tx) (ks : List String) (x : String),
      x ∈ ks →
      x ∈ txs.foldl (fun ks t => if t.from_ ∈ ks then ks else ks ++ [t.from_]) ks := by
  intro txs
  induction txs with
  | nil => intro ks x hx; exact hx
  | cons t rest ih =>
    intro ks x hx
    rw [List.foldl_cons]
    apply ih
    by_cases ht : t.from_ ∈ ks
    · rw [if_pos ht]; exact hx
    · rw [if_neg ht]; exact List.mem_append_left _ hx

/-- Every transaction's source account ends up among the grouping keys. -/
theorem from_mem_velocityKeys_foldl :
    ∀ (txs : List Tx) (ks : List String) (t : Tx),
      t ∈ txs →
      t.from_ ∈ txs.foldl (fun ks t => if t.from_ ∈ ks then ks else ks ++ [t.from_]) ks := by
  intro txs
  induction txs with
  | nil => intro ks t ht; exact absurd ht (List.not_mem_nil t)
  | cons u rest ih =>
    intro ks t ht
    rw [List.foldl_cons]
    rcases List.mem_cons.mp ht with rfl | ht'
    · apply velocityKeys_foldl_mono
      by_cases hu : t.from_ ∈ ks
      · rw [if_pos hu]; exact hu
      · rw [if_neg hu]; exact List.mem_append_right _ (List.mem_singleton_self _)
    · exact ih _ t ht'

/-- C9 (amended): an account is flagged by `detectVelocityAnomalies` if and
only if it issues more than 50 transactions in the analyzed list — the
transactions' timestamps are never consulted, so the "rolling 60-minute
window" exists only as the constant `timeWindow = 60` copied into the
report. -/
theorem detectVelocityAnomalies_iff (txs : List Tx) (acc : String) :
    (∃ v ∈ detectVelocityAnomalies txs, v.account = acc) ↔
    50 < (txs.filter (fun t => t.from_ = acc)).length := by
  constructor
  · rintro ⟨v, hv, hacc⟩
    simp only [detectVelocityAnomalies, List.mem_filterMap] at hv
    obtain ⟨k, _, hfk⟩ := hv
    by_cases hlen : 50 < (txs.filter (fun t => t.from_ = k)).length
    · rw [if_pos hlen] at hfk
      have hk : k = acc := by
        have := congrArg VelocityAnomaly.account (Option.some.inj hfk)
        simpa [← hacc] using this
      rw [← hk]
      exact hlen
    · rw [if_neg hlen] at hfk
      exact Option.noConfusion hfk
  · intro hlen
    have hpos : 0 < (txs.filter (fun t => t.from_ = acc)).length := by omega
    obtain ⟨t, ht⟩ := List.exists_mem_of_length_pos hpos
    have htx : t ∈ txs := List.mem_of_mem_filter ht
    have hfrom : t.from_ = acc := by simpa using List.of_mem_filter ht
    have hkey : acc ∈ velocityKeys txs := by
      rw [← hfrom]
      exact from_mem_velocityKeys_foldl txs [] t htx
    refine ⟨⟨acc, (txs.filter (fun t => t.from_ = acc)).length, 60⟩, ?_, rfl⟩
    simp only [detectVelocityAnomalies, List.mem_filterMap]
    refine ⟨acc, hkey, ?_⟩
    rw [if_pos hlen]

def c9Txs : List Tx :=
  (List.range 51).map (fun i => ⟨"A", "B", 5, (i : Int) * 1000000000⟩)

set_option maxRecDepth 100000 in
/-- C9 counterexample to the claim as stated: account `A` issues 51
transactions pairwise at least 10^9 time units apart (far beyond a
60-minute window whether timestamps are read as seconds or milliseconds),
so by the claim it must not be flagged — yet the engine flags it, because
only the total count is compared against 50. -/
theorem detectVelocityAnomalies_ignores_time :
    (detectVelocityAnomalies c9Txs).map (fun v => v.account) = ["A"] ∧
    ∀ t1 ∈ c9Txs, ∀ t2 ∈ c9Txs, t1 ≠ t2 → 3600000 ≤ |t1.timestamp - t2.timestamp| := by
  decide

/-! ## C4: chain-of-custody invariant -/

/-- Well-formedness is monotone in the clock bound. -/
theorem vaultWF_mono {t t' : Nat} (htt : t ≤ t') {vault : List VaultEvidence} :
    VaultWF t vault → VaultWF t' vault := by
  intro hwf e he
  obtain ⟨h1, h2, h3⟩ := hwf e he
  exact ⟨h1, h2, fun c hc => le_trans (h3 c hc) htt⟩

/-- A targeted update that appends exactly one entry stamped with the new
clock reading preserves well-formedness. -/
theorem vaultWF_update {t t' : Nat} (htt : t ≤ t') (vault : List VaultEvidence)
    (tid : String) (g : VaultEvidence → VaultEvidence)
    (hg : ∀ e, ∃ c, (g e).chainOfCustody = e.chainOfCustody ++ [c] ∧ c.timestamp = t') :
    VaultWF t vault → VaultWF t' (vault.map (fun e => if e.id = tid then g e else e)) := by
  intro hwf e' he'
  obtain ⟨a, ha, rfl⟩ := List.mem_map.mp he'
  obtain ⟨⟨c0, rest0, hchain, hact⟩, hsort, hbound⟩ := hwf a ha
  by_cases hid : a.id = tid
  · rw [if_pos hid]
    obtain ⟨c, hc, hct⟩ := hg a
    refine ⟨⟨c0, rest0 ++ [c], ?_, hact⟩, ?_, ?_⟩
    · rw [hc, hchain, List.cons_append]
    · rw [hc]
      refine List.Chain'.append hsort (List.chain'_singleton c) ?_
      intro x hx y hy
      have hyc : y = c := by
        have := hy
        simp at this
        exact this.symm
      obtain ⟨hne, hxl⟩ := List.mem_getLast?_eq_getLast hx
      have hxm : x ∈ a.chainOfCustody := hxl ▸ List.getLast_mem hne
      rw [hyc, hct]
      exact le_trans (hbound x hxm) htt
    · intro c' hc'
      rw [hc] at hc'
      rcases List.mem_append.mp hc' with hmem | hmem
      · exact le_trans (hbound c' hmem) htt
      · have : c' = c := by simpa using hmem
        rw [this, hct]
  · rw [if_neg hid]
    exact ⟨⟨c0, rest0, hchain, hact⟩, hsort, fun c hc => le_trans (hbound c hc) htt⟩

/-- Every single registry operation preserves well-formedness at its clock
reading: each of `access`, `verify` and `export` either leaves the registry
untouched (unknown id) or appends one freshly-stamped entry to the target
record's chain. -/
theorem vaultWF_stepOp {t : Nat} {vault : List VaultEvidence} (p : VaultOp × Nat)
    (htt : t ≤ p.2) (hwf : VaultWF t vault) : VaultWF p.2 (stepOp vault p) := by
  obtain ⟨op, t'⟩ := p
  cases op with
  | access evidenceId investigator purpose =>
    simp only [stepOp, accessEvidence]
    cases hf : findEvidence vault evidenceId with
    | none => exact vaultWF_mono htt hwf
    | some ev =>
      exact vaultWF_update htt vault evidenceId _ (fun e => ⟨_, rfl, rfl⟩) hwf
  | verify evidenceId investigator =>
    simp only [stepOp, verifyIntegrity]
    cases hf : findEvidence vault evidenceId with
    | none => exact vaultWF_mono htt hwf
    | some ev =>
      exact vaultWF_update htt vault evidenceId _ (fun e => ⟨_, rfl, rfl⟩) hwf
  | exportOp evidenceId investigator format =>
    simp only [stepOp, exportEvidence]
    cases hf : findEvidence vault evidenceId with
    | none => exact vaultWF_mono htt hwf
    | some ev =>
      exact vaultWF_update htt vault evidenceId _ (fun e => ⟨_, rfl, rfl⟩) hwf

/-- Well-formedness survives a whole trace whose clock readings are
non-decreasing and start no earlier than the current bound. -/
theorem vaultWF_runTrace :
    ∀ (trace : List (VaultOp × Nat)) (vault : List VaultEvidence) (t : Nat),
      VaultWF t vault →
      List.Chain' (fun a b => a ≤ b) (t :: trace.map Prod.snd) →
      ∃ t2, VaultWF t2 (runTrace vault trace) := by
  intro trace
  induction trace with
  | nil => intro vault t hwf _; exact ⟨t, hwf⟩
  | cons p rest ih =>
    intro vault t hwf hchain
    rw [List.map_cons] at hchain
    rcases List.chain'_cons.mp hchain with ⟨h1, h2⟩
    exact ih (stepOp vault p) p.2 (vaultWF_stepOp p h1 hwf) h2

/-- One step never removes or reorders custody entries: the chain under any
id only ever gains a (possibly empty) suffix. -/
theorem chainOf_stepOp (vault : List VaultEvidence) (p : VaultOp × Nat) (q : String) :
    ∃ tail, chainOf (stepOp vault p) q = chainOf vault q ++ tail := by
  obtain ⟨op, t'⟩ := p
  have key : ∀ (g : VaultEvidence → VaultEvidence) (tid : String),
      (∀ e, (g e).id = e.id) →
      (∀ e, ∃ c, (g e).chainOfCustody = e.chainOfCustody ++ [c]) →
      ∃ tail, chainOf (vault.map (fun e => if e.id = tid then g e else e)) q
        = chainOf vault q ++ tail := by
    intro g tid hgid hgc
    unfold chainOf
    rw [findEvidence_map_update vault tid g hgid q]
    cases hf : findEvidence vault q with
    | none => exact ⟨[], by simp⟩
    | some e =>
      by_cases hid : e.id = tid
      · obtain ⟨c, hc⟩ := hgc e
        exact ⟨[c], by simp [hid, hc]⟩
      · exact ⟨[], by simp [hid]⟩
  cases op with
  | access evidenceId investigator purpose =>
    simp only [stepOp, accessEvidence]
    cases hf : findEvidence vault evidenceId with
    | none => exact ⟨[], by simp⟩
    | some ev => exact key _ evidenceId (fun _ => rfl) (fun e => ⟨_, rfl⟩)
  | verify evidenceId investigator =>
    simp only [stepOp, verifyIntegrity]
    cases hf : findEvidence vault evidenceId with
    | none => exact ⟨[], by simp⟩
    | some ev => exact key _ evidenceId (fun _ => rfl) (fun e => ⟨_, rfl⟩)
  | exportOp evidenceId investigator format =>
    simp only [stepOp, exportEvidence]
    cases hf : findEvidence vault evidenceId with
    | none => exact ⟨[], by simp⟩
    | some ev => exact key _ evidenceId (fun _ => rfl) (fun e => ⟨_, rfl⟩)

/-- Across a whole trace, any record's chain keeps its existing entries as a
prefix. -/
theorem chainOf_runTrace :
    ∀ (trace : List (VaultOp × Nat)) (vault : List VaultEvidence) (q : String),
      ∃ tail, chainOf (runTrace vault trace) q = chainOf vault q ++ tail := by
  intro trace
  induction trace with
  | nil => intro vault q; exact ⟨[], by simp [runTrace]⟩
  | cons p rest ih =>
    intro vault q
    obtain ⟨tail1, h1⟩ := chainOf_stepOp vault p q
    obtain ⟨tail2, h2⟩ := ih (stepOp vault p) q
    refine ⟨tail1 ++ tail2, ?_⟩
    rw [show runTrace vault (p :: rest) = runTrace (stepOp vault p) rest from rfl,
        h2, h1, List.append_assoc]

/-- C4: for every record produced by `archiveEvidence`, the chain of custody
at construction is exactly one `created` entry; and after any sequence of
`access` / `verify` / `export` operations whose `Date.now()` readings are
non-decreasing (starting from the archival time) over a registry whose
chains are well-formed, every record's chain still starts with a `created`
entry and has non-decreasing timestamps, and no record's chain ever loses
or reorders entries (the pre-trace chain persists as a prefix). -/
theorem custody_chain_invariant (h : List Nat → Nat) (enc : List Nat → List Nat)
    (vault : List VaultEvidence) (caseId fileName : String) (fileData : List Nat)
    (metadata : EvidenceMetadata) (tags : List String) (now : Nat) (rand : String)
    (trace : List (VaultOp × Nat))
    (hwf : VaultWF now vault)
    (hmono : List.Chain' (fun a b => a ≤ b) (now :: trace.map Prod.snd)) :
    (archiveEvidence h enc vault caseId fileName fileData metadata tags now rand).1.chainOfCustody
      = [⟨now, ChainAction.created, "System", some "Evidence archived and encrypted",
          some (h fileData)⟩] ∧
    (∀ e ∈ runTrace (archiveEvidence h enc vault caseId fileName fileData metadata tags now rand).2 trace,
      (∃ c rest, e.chainOfCustody = c :: rest ∧ c.action = ChainAction.created) ∧
      List.Chain' (fun a b => a.timestamp ≤ b.timestamp) e.chainOfCustody) ∧
    (∀ q, ∃ tail,
      chainOf (runTrace (archiveEvidence h enc vault caseId fileName fileData metadata tags now rand).2 trace) q
        = chainOf (archiveEvidence h enc vault caseId fileName fileData metadata tags now rand).2 q ++ tail) := by
  refine ⟨rfl, ?_, fun q => chainOf_runTrace trace _ q⟩
  have hwf1 : VaultWF now (archiveEvidence h enc vault caseId fileName fileData metadata tags now rand).2 := by
    intro e he
    rcases List.mem_append.mp he with hmem | hmem
    · exact hwf e hmem
    · have he1 : e = (archiveEvidence h enc vault caseId fileName fileData metadata tags now rand).1 := by
        simpa using hmem
      have hch : (archiveEvidence h enc vault caseId fileName fileData metadata tags now rand).1.chainOfCustody
          = [⟨now, ChainAction.created, "System",
              some "Evidence archived and encrypted", some (h fileData)⟩] := rfl
      rw [he1, hch]
      refine ⟨⟨_, [], rfl, rfl⟩, List.chain'_singleton _, ?_⟩
      intro c hc
      have hcc := List.mem_singleton.mp hc
      rw [hcc]
  obtain ⟨t2, hwf2⟩ := vaultWF_runTrace trace _ now hwf1 hmono
  intro e he
  obtain ⟨h1, h2, _⟩ := hwf2 e he
  exact ⟨h1, h2⟩

def c4Trace : List (VaultOp × Nat) :=
  [(VaultOp.access "EV-5-r" "alice" "case review", 6),
   (VaultOp.verify "EV-5-r" "bob", 7),
   (VaultOp.exportOp "EV-5-r" "carol" "encrypted", 9)]

/-- Witness for C4's theorem: archiving into an empty registry at time 5
and then accessing, verifying and exporting at times 6, 7 and 9. -/
theorem custody_chain_invariant_witness :
    VaultWF 5 [] ∧
    List.Chain' (fun a b => a ≤ b) (5 :: c4Trace.map Prod.snd) ∧
    ((archiveEvidence (fun l => l.length) (fun l => l) [] "CASE-1" "dump.sql" [1, 2, 3]
        ⟨"db", none, none, none⟩ [] 5 "r").1.chainOfCustody
      = [⟨5, ChainAction.created, "System", some "Evidence archived and encrypted", some 3⟩] ∧
    (∀ e ∈ runTrace (archiveEvidence (fun l => l.length) (fun l => l) [] "CASE-1" "dump.sql" [1, 2, 3]
        ⟨"db", none, none, none⟩ [] 5 "r").2 c4Trace,
      (∃ c rest, e.chainOfCustody = c :: rest ∧ c.action = ChainAction.created) ∧
      List.Chain' (fun a b => a.timestamp ≤ b.timestamp) e.chainOfCustody) ∧
    (∀ q, ∃ tail,
      chainOf (runTrace (archiveEvidence (fun l => l.length) (fun l => l) [] "CASE-1" "dump.sql" [1, 2, 3]
          ⟨"db", none, none, none⟩ [] 5 "r").2 c4Trace) q
        = chainOf (archiveEvidence (fun l => l.length) (fun l => l) [] "CASE-1" "dump.sql" [1, 2, 3]
          ⟨"db", none, none, none⟩ [] 5 "r").2 q ++ tail)) :=
  ⟨fun e he => absurd he (List.not_mem_nil e),
   by norm_num [c4Trace, List.chain'_cons],
   custody_chain_invariant (fun l => l.length) (fun l => l) [] "CASE-1" "dump.sql" [1, 2, 3]
     ⟨"db", none, none, none⟩ [] 5 "r" c4Trace
     (fun e he => absurd he (List.not_mem_nil e))
     (by norm_num [c4Trace, List.chain'_cons])⟩
